import Mathlib

/-!
# Verification of the inventory dashboard forecast engine

Shallow embedding of the forecast core of the inventory dashboard:
* `useProductForecast` (src/hooks/useSheetData.ts) — the forecast engine;
* `criticalPoint` (src/components/ProductGraph.tsx) — the threshold-crossing scan.

Modelling conventions:
* A JS `Date` produced by `parseDate` / `new Date(y, m, d)` is modelled as its
  day number (days since 1970-01-01, proleptic Gregorian, local midnight).
  `getTime()` comparisons become `Int` comparisons, `setDate(+n)` becomes `+ n`,
  and `setMonth(+3)` becomes calendar month arithmetic with JS overflow rollover.
* JS numbers are modelled as `ℚ`.  `NaN` is tracked where it is reachable
  (the regression slope when its denominator is zero): a computed number is a
  `JsNum := Option ℚ` with `none` = NaN, and a chart field is a `JsVal`
  (`vnull` = null, `vnan` = NaN, `vnum q` = a finite number).
* String date parsing (`parseDate`) and integer parsing (`parseInt`) are the
  abstraction boundary: a record field holds the parse result directly
  (`Option Int`), `none` meaning the string failed to parse.
-/

namespace Inventory

/-! ## Calendar arithmetic (proleptic Gregorian, Hinnant's algorithm) -/

/-- Day number of a civil date `(y, m, d)` with `m ∈ [1, 12]`; `d` may be out of
range (JS normalizes day overflow by rolling into the following months). -/
def daysFromCivil (y m d : Int) : Int :=
  let y1 := if m ≤ 2 then y - 1 else y
  let era := Int.ediv y1 400
  let yoe := y1 - era * 400
  let mp := if 2 < m then m - 3 else m + 9
  let doy := Int.ediv (153 * mp + 2) 5 + d - 1
  let doe := yoe * 365 + Int.ediv yoe 4 - Int.ediv yoe 100 + doy
  era * 146097 + doe - 719468

/-- Civil date `(y, m, d)` (month `1..12`) of a day number. -/
def civilFromDays (z0 : Int) : Int × Int × Int :=
  let z := z0 + 719468
  let era := Int.ediv z 146097
  let doe := z - era * 146097
  let yoe := Int.ediv (doe - Int.ediv doe 1460 + Int.ediv doe 36524 - Int.ediv doe 146096) 365
  let y := yoe + era * 400
  let doy := doe - (365 * yoe + Int.ediv yoe 4 - Int.ediv yoe 100)
  let mp := Int.ediv (5 * doy + 2) 153
  let d := doy - Int.ediv (153 * mp + 2) 5 + 1
  let m := if mp < 10 then mp + 3 else mp - 9
  (if m ≤ 2 then y + 1 else y, m, d)

/-- `new Date(y, m, d)` with JS 0-based month `m` (arbitrary), as a day number. -/
def mkDate (y m d : Int) : Int :=
  daysFromCivil (y + Int.ediv m 12) (Int.emod m 12 + 1) d

/-- `d.setMonth(d.getMonth() + 3)`: add three calendar months with JS
day-overflow rollover. -/
def addMonths3 (t : Int) : Int :=
  let c := civilFromDays t
  mkDate c.1 (c.2.1 - 1 + 3) c.2.2

/-- `formatDateShort`: the `DD/MM` label of a date, as the pair (day, month).
(The zero-padded decimal string is injective on such pairs, so pair equality
coincides with label-string equality.) -/
def formatDateShort (t : Int) : Int × Int :=
  let c := civilFromDays t
  (c.2.2, c.2.1)

/-! ## JS numbers and chart values -/

/-- A computed JS number: `none` models NaN. -/
abbrev JsNum := Option ℚ

/-- A JS chart-field value: null, NaN, or a finite number. -/
inductive JsVal where
  | vnull : JsVal
  | vnan : JsVal
  | vnum (q : ℚ) : JsVal
deriving DecidableEq

/-- `x + y` with NaN propagation. -/
def jsAdd (a b : JsNum) : JsNum :=
  match a, b with
  | some x, some y => some (x + y)
  | _, _ => none

/-- `x * c` with NaN propagation. -/
def jsMulC (a : JsNum) (c : ℚ) : JsNum := a.map (· * c)

/-- `Math.round x` (`= ⌊x + 1/2⌋` for finite JS numbers), NaN-preserving. -/
def jsRound (a : JsNum) : JsNum := a.map (fun q => ((⌊q + 1/2⌋ : ℤ) : ℚ))

/-- `Math.max 0 x`; `Math.max(0, NaN) = NaN`. -/
def jsMax0 (a : JsNum) : JsNum := a.map (fun q => max 0 q)

/-- Store a computed number into a chart field. -/
def toVal (a : JsNum) : JsVal :=
  match a with
  | none => JsVal.vnan
  | some q => JsVal.vnum q

/-- Store an optional (possibly absent) number into a chart field. -/
def optVal (a : Option ℚ) : JsVal :=
  match a with
  | none => JsVal.vnull
  | some q => JsVal.vnum q

/-- `v !== null && v !== undefined && v <= a` (false for null and NaN). -/
def JsVal.leNum : JsVal → ℚ → Bool
  | JsVal.vnum q, a => decide (q ≤ a)
  | _, _ => false

/-- `v !== null && v !== undefined && v > a` (false for null and NaN). -/
def JsVal.gtNum : JsVal → ℚ → Bool
  | JsVal.vnum q, a => decide (a < q)
  | _, _ => false

/-- The JS null-coalescing operator `a ?? b`. -/
def JsVal.orElse : JsVal → JsVal → JsVal
  | JsVal.vnull, b => b
  | a, _ => a

/-! ## Domain records (parse results of the sheet rows) -/

/-- A history sample: `date` is the `parseDate` result (none = unparseable). -/
structure HistoryItem where
  date : Option Int
  sku : String
  quantity : ℚ
deriving DecidableEq

/-- An order row.  `orderDate` / `expectedDate` are `parseDate` results,
`quantity` is the `parseInt(q, 10)` result (none = NaN), and `received` holds
`(received || "").toString().trim().toLowerCase()` — the trimmed, lowercased
received cell (string normalization, like parsing, sits at the abstraction
boundary). -/
structure Order where
  orderDate : Option Int
  dermaSku : String
  quantity : Option Int
  received : String
  expectedDate : Option Int
deriving DecidableEq

/-- A minimum-threshold row. -/
structure MinAmountItem where
  sku : String
  minAmount : ℚ
deriving DecidableEq

/-- One point of the produced chart series. -/
structure ForecastPoint where
  date : Int × Int
  quantity : JsVal
  forecast : JsVal
  onTheWay : JsVal
  minAmount : JsVal
deriving DecidableEq

/-- A usable (sku-filtered, parsed) history sample. -/
structure Samp where
  t : Int
  q : ℚ
deriving DecidableEq

/-- A resolved open order `{qty, expectedDate}`. -/
structure ROrder where
  qty : Int
  expected : Int
deriving DecidableEq

/-- The value returned by the forecast hook. -/
structure ForecastResult where
  chartData : List ForecastPoint
  declineRate : JsNum
  minAmount : Option ℚ
  realRate : JsNum
  minRate : ℚ
deriving DecidableEq

/-! ## History pipeline: filter, sort, deduplicate -/

instance sampLeDec : DecidableRel (fun a b : Samp => a.t ≤ b.t) :=
  fun a b => Int.decLe a.t b.t

/-- The deduplication key: the `DD/MM` label together with the quantity. -/
def sampKey (s : Samp) : (Int × Int) × ℚ := (formatDateShort s.t, s.q)

/-- Tail of the consecutive-duplicate filter: drop an element whose key equals
its immediate predecessor's (in the original sorted list). -/
def dedupRun (prev : Samp) : List Samp → List Samp
  | [] => []
  | b :: l => if sampKey b = sampKey prev then dedupRun b l else b :: dedupRun b l

/-- `filter((h, i, arr) => i === 0 || label/quantity differ from arr[i-1])`. -/
def dedupSamples : List Samp → List Samp
  | [] => []
  | a :: l => a :: dedupRun a l

/-- Filter the history to a sku, keep parseable dates, sort ascending (stably,
like JS `sort`), deduplicate consecutive (label, quantity) repeats. -/
def skuHistoryOf (history : List HistoryItem) (sku : String) : List Samp :=
  dedupSamples
    (List.insertionSort (fun a b => a.t ≤ b.t)
      ((history.filter (fun h => h.sku == sku)).filterMap
        (fun h => h.date.map (fun t => ⟨t, h.quantity⟩))))

/-! ## Minimum amount and rates -/

/-- `minAmountData.find(m => m.sku === sku)?.minAmount`. -/
def minAmountOf (minAmountData : List MinAmountItem) (sku : String) : Option ℚ :=
  (minAmountData.find? (fun m => m.sku == sku)).map (fun m => m.minAmount)

/-- `minRate = -(minAmount / 180)` when present, otherwise the initial `0`. -/
def minRateOf (mA : Option ℚ) : ℚ :=
  match mA with
  | some a => -(a / 180)
  | none => 0

/-! ## Regression (least squares over elapsed days) -/

/-- Regression points `(x, y)` with `x` = days since the first sample. -/
def regPoints (l : List Samp) : List (ℚ × ℚ) :=
  match l with
  | [] => []
  | s0 :: _ => l.map (fun h => (((h.t - s0.t : Int) : ℚ), h.q))

/-- `n * Σxy - Σx * Σy`. -/
def regNum (l : List Samp) : ℚ :=
  let pts := regPoints l
  (l.length : ℚ) * (pts.map (fun p => p.1 * p.2)).sum
    - (pts.map (fun p => p.1)).sum * (pts.map (fun p => p.2)).sum

/-- `n * Σx² - (Σx)²`. -/
def regDen (l : List Samp) : ℚ :=
  let pts := regPoints l
  (l.length : ℚ) * (pts.map (fun p => p.1 * p.1)).sum
    - (pts.map (fun p => p.1)).sum * (pts.map (fun p => p.1)).sum

/-- The JS slope `(n*Σxy − ΣxΣy) / (n*Σx² − (Σx)²)`.  When the denominator is
zero the numerator is forced to zero as well (all `x` equal), so the JS float
division yields `0/0 = NaN`, modelled as `none`. -/
def slopeJs (l : List Samp) : JsNum :=
  if regDen l = 0 then none else some (regNum l / regDen l)

/-! ## Open-order resolution -/

/-- The recognized-received value set (compared trimmed and lowercased). -/
def receivedValues : List String := ["כן", "v", "✓", "true", "yes"]

/-- `RECEIVED_VALUES.includes((o.received || "").toString().trim().toLowerCase())`
(the field already carries the trimmed lowercased text). -/
def isReceived (o : Order) : Bool :=
  receivedValues.contains o.received

/-- The resolved expected date: the explicit `expectedDate` when it parsed,
otherwise `orderDate + 3` months, otherwise unresolvable. -/
def resolveExpected (o : Order) : Option Int :=
  match o.expectedDate with
  | some t => some t
  | none => o.orderDate.map addMonths3

instance rorderLeDec : DecidableRel (fun a b : ROrder => a.expected ≤ b.expected) :=
  fun a b => Int.decLe a.expected b.expected

/-- The sku's open orders with resolved expected dates, sorted ascending:
`orders.filter(dermaSku).filter(!received).map(resolve).filter(≠ null).sort()`. -/
def resolveSkuOrders (orders : List Order) (sku : String) : List ROrder :=
  List.insertionSort (fun a b => a.expected ≤ b.expected)
    (((orders.filter (fun o => o.dermaSku == sku)).filter
        (fun o => !(isReceived o))).filterMap
      (fun o => (resolveExpected o).map (fun t => ⟨o.quantity.getD 0, t⟩)))

/-! ## Forward projection -/

/-- Order quantities arriving in the half-open window `(a, b]`.  (The source
adds each matching order's quantity in turn; over exact rationals this equals
adding the sum.) -/
def arrivalsIn (ords : List ROrder) (a b : Int) : ℚ :=
  ((ords.filter (fun o => decide (a < o.expected ∧ o.expected ≤ b))).map
    (fun o => (o.qty : ℚ))).sum

/-- The matcher of the "today" anchor point:
`p.date === todayLabel && p.forecast !== null`. -/
def anchorMatchB (today : Int) (p : ForecastPoint) : Bool :=
  decide (p.date = formatDateShort today ∧ p.forecast ≠ JsVal.vnull)

/-- Replace the first element satisfying `p` (identity when none matches) —
the functional form of `chartData.find(...)` followed by mutation. -/
def updateFirst (p : α → Bool) (f : α → α) : List α → List α
  | [] => []
  | a :: l => if p a then f a :: l else a :: updateFirst p f l

/-- The 26-step weekly projection loop (`for i in 1..26`), carrying the two
running values (`runningForecast`, `runningWithOrders`). -/
def genFuture (fStart : Int) (slope : JsNum) (ords : List ROrder) (hasOrders : Bool)
    (mA : Option ℚ) : ℕ → ℕ → JsNum → JsNum → List ForecastPoint
  | _, 0, _, _ => []
  | i, Nat.succ c, rf, rw =>
    let prevT := fStart + ((i : Int) - 1) * 7
    let futT := fStart + (i : Int) * 7
    let rf2 := jsAdd rf (jsMulC slope 7)
    let rw2 := jsAdd (jsAdd rw (jsMulC slope 7)) (some (arrivalsIn ords prevT futT))
    { date := formatDateShort futT, quantity := JsVal.vnull,
      forecast := toVal (jsMax0 (jsRound rf2)),
      onTheWay := if hasOrders then toVal (jsMax0 (jsRound rw2)) else JsVal.vnull,
      minAmount := optVal mA } :: genFuture fStart slope ords hasOrders mA (i + 1) c rf2 rw2

/-! ## The forecast engine -/

/-- The last usable history date (`skuHistory[skuHistory.length - 1].dateObj`);
only evaluated on nonempty lists. -/
def lastTOf (l : List Samp) : Int := l.getLast?.elim 0 (fun s => s.t)

/-- `forecastStart = today > lastDate ? today : lastDate`. -/
def fStartOf (l : List Samp) (today : Int) : Int :=
  if lastTOf l < today then today else lastTOf l

/-- The historical chart points: one per deduplicated sample, the last one
anchored with `forecast = currentStock`. -/
def histPtsOf (l : List Samp) (mA : Option ℚ) (currentStock : ℚ) : List ForecastPoint :=
  l.enum.map (fun iv =>
    { date := formatDateShort iv.2.t, quantity := JsVal.vnum iv.2.q,
      forecast := if iv.1 = l.length - 1 then JsVal.vnum currentStock else JsVal.vnull,
      onTheWay := JsVal.vnull, minAmount := optVal mA })

/-- The historical points plus, when the last history date is not today, the
synthetic transition point at today. -/
def anchorsOf (l : List Samp) (mA : Option ℚ) (currentStock : ℚ) (today : Int) :
    List ForecastPoint :=
  if lastTOf l = today then histPtsOf l mA currentStock else
    histPtsOf l mA currentStock ++
      [{ date := formatDateShort today, quantity := JsVal.vnull,
         forecast := JsVal.vnum currentStock, onTheWay := JsVal.vnull,
         minAmount := optVal mA }]

/-- The mutation applied to the found today-anchor point:
`todayPoint.forecast = startQty; if (skuOrders.length > 0) todayPoint.onTheWay = startQty`. -/
def anchorUpdate (startQty : ℚ) (ordsLen : ℕ) (p : ForecastPoint) : ForecastPoint :=
  { p with
    forecast := JsVal.vnum startQty,
    onTheWay := if 0 < ordsLen then JsVal.vnum startQty else p.onTheWay }

/-- The `skuHistory.length >= 2` branch of `useProductForecast` (only reached
with a nonempty sample list). -/
def forecastWithHistory (l : List Samp) (orders : List Order) (sku : String)
    (mA : Option ℚ) (minRate : ℚ) (currentStock : ℚ) (today : Int) : ForecastResult :=
  let slope := slopeJs l
  -- `minAmount !== null ? minRate : slope`
  let forecastSlope : JsNum := if mA.isSome then some minRate else slope
  let anchors := anchorsOf l mA currentStock today
  let ords := resolveSkuOrders orders sku
  let fStart := fStartOf l today
  let overdueQty : ℚ :=
    ords.foldl (fun acc o => if o.expected ≤ fStart then acc + (o.qty : ℚ) else acc) 0
  let startQty := currentStock + overdueQty
  let anchors2 := updateFirst (anchorMatchB today) (anchorUpdate startQty ords.length) anchors
  let future := genFuture fStart forecastSlope ords (decide (0 < ords.length)) mA 1 26
    (some startQty) (some startQty)
  { chartData := anchors2 ++ future, declineRate := forecastSlope,
    minAmount := mA, realRate := slope, minRate := minRate }

/-- The `currentStock > 0` no-history branch.  The source builds the single
starting point with `forecast = currentStock`, then immediately overwrites the
last (only) point's `forecast` with `startQty` and sets `onTheWay` when open
orders exist; the point is built here in its final form. -/
def forecastNoHistory (orders : List Order) (sku : String) (mA : Option ℚ)
    (minRate : ℚ) (currentStock : ℚ) (today : Int) : ForecastResult :=
  let forecastSlope : ℚ := if mA.isSome then minRate else 0
  let ords := resolveSkuOrders orders sku
  let overdueQty : ℚ :=
    ords.foldl (fun acc o => if o.expected ≤ today then acc + (o.qty : ℚ) else acc) 0
  let startQty := currentStock + overdueQty
  let pt0 : ForecastPoint :=
    { date := formatDateShort today, quantity := JsVal.vnum currentStock,
      forecast := JsVal.vnum startQty,
      onTheWay := if 0 < ords.length then JsVal.vnum startQty else JsVal.vnull,
      minAmount := optVal mA }
  let future := genFuture today (some forecastSlope) ords (decide (0 < ords.length)) mA 1 26
    (some startQty) (some startQty)
  { chartData := pt0 :: future, declineRate := some forecastSlope,
    minAmount := mA, realRate := some 0, minRate := minRate }

/-- `useProductForecast(sku, currentStock)` with its data dependencies
(`history`, `orders`, `minAmountData`) and the ambient midnight-normalized
`today` made explicit. -/
def useProductForecast (history : List HistoryItem) (orders : List Order)
    (minAmountData : List MinAmountItem) (sku : String) (currentStock : ℚ)
    (today : Int) : ForecastResult :=
  let mA := minAmountOf minAmountData sku
  match skuHistoryOf history sku with
  | s0 :: s1 :: rest =>
    forecastWithHistory (s0 :: s1 :: rest) orders sku mA (minRateOf mA) currentStock today
  | _ =>
    if 0 < currentStock then
      forecastNoHistory orders sku mA (minRateOf mA) currentStock today
    else
      { chartData := [], declineRate := some 0, minAmount := mA,
        realRate := some 0, minRate := minRateOf mA }

/-! ## The critical-point scan (ProductGraph.tsx) -/

/-- `chartData.some(p => p.onTheWay !== null)`. -/
def hasOrdersOf (chartData : List ForecastPoint) : Bool :=
  chartData.any (fun p => decide (p.onTheWay ≠ JsVal.vnull))

/-- `chartData.filter(p => p.quantity === null)` — the forecast-only points. -/
def fPointsOf (chartData : List ForecastPoint) : List ForecastPoint :=
  chartData.filter (fun p => decide (p.quantity = JsVal.vnull))

/-- `p.onTheWay ?? p.forecast`. -/
def fallbackVal (p : ForecastPoint) : JsVal := p.onTheWay.orElse p.forecast

/-- The critical point: first sub-threshold forecast point without orders;
with orders, the first sub-threshold point after the last above-threshold one
(the final descent), falling back to the first sub-threshold point when the
value never exceeds the threshold. -/
def criticalPoint (chartData : List ForecastPoint) (minAmount : Option ℚ) :
    Option ForecastPoint :=
  match minAmount with
  | none => none
  | some mA =>
    let forecastPoints := fPointsOf chartData
    if !(hasOrdersOf chartData) then
      (forecastPoints.filter (fun p => p.forecast.leNum mA)).head?
    else
      let vals := forecastPoints.map fallbackVal
      let lastAboveIndex : Int := vals.enum.foldl
        (fun acc iv => if iv.2.gtNum mA then (iv.1 : Int) else acc) (-1)
      if lastAboveIndex = -1 then
        (forecastPoints.filter (fun p => (fallbackVal p).leNum mA)).head?
      else
        (forecastPoints.drop (lastAboveIndex.toNat + 1)).find?
          (fun p => (fallbackVal p).leNum mA)

/-! ## Basic lemmas about the pipeline -/

-- Allow kernel evaluation of rational arithmetic on concrete inputs.
attribute [local semireducible] Rat.add Rat.mul Rat.sub Rat.inv Rat.ofScientific

theorem dedupRun_congr (l : List Samp) (p p2 : Samp) (h : sampKey p = sampKey p2) :
    dedupRun p l = dedupRun p2 l := by
  cases l with
  | nil => rfl
  | cons b t => simp only [dedupRun, h]

theorem dedupRun_idem (l : List Samp) : ∀ prev, dedupRun prev (dedupRun prev l) = dedupRun prev l := by
  induction l with
  | nil => intro prev; rfl
  | cons b t ih =>
    intro prev
    by_cases h : sampKey b = sampKey prev
    · simp only [dedupRun, if_pos h]
      rw [dedupRun_congr _ prev b h.symm, ih b]
    · simp only [dedupRun, if_neg h, if_neg h]
      rw [ih b]

/-- **C10.** The consecutive-duplicate deduplication of the date-sorted history
(drop a sample whose day/month label and quantity both equal the previous
sample's) is idempotent: a second application returns its input unchanged. -/
theorem dedupSamples_idempotent (l : List Samp) :
    dedupSamples (dedupSamples l) = dedupSamples l := by
  cases l with
  | nil => rfl
  | cons a t => simp only [dedupSamples]; rw [dedupRun_idem]

/-! ## C7: the open-order resolver -/

instance : IsTotal ROrder (fun a b => a.expected ≤ b.expected) :=
  ⟨fun a b => Int.le_total a.expected b.expected⟩

instance : IsTrans ROrder (fun a b => a.expected ≤ b.expected) :=
  ⟨fun _ _ _ hab hbc => le_trans hab hbc⟩

/-- Following the spec's words: the resolved expected-arrival date uses the
explicitly given expected date when it parses, otherwise orderDate plus 3
calendar months, and is unresolvable when both dates fail to parse. -/
def specResolvedDate (o : Order) : Option Int :=
  match o.expectedDate with
  | some t => some t
  | none =>
    match o.orderDate with
    | some t => some (addMonths3 t)
    | none => none

/-- Following the spec's words: the sku's orders not marked received whose
expected-arrival date resolves, each as `{qty, expected}` (unsorted). -/
def specOpenOrders (orders : List Order) (sku : String) : List ROrder :=
  (orders.filter
      (fun o => o.dermaSku == sku && !(isReceived o) && (specResolvedDate o).isSome)).map
    (fun o => ⟨o.quantity.getD 0, (specResolvedDate o).getD 0⟩)

theorem specResolvedDate_eq (o : Order) : specResolvedDate o = resolveExpected o := by
  cases h : o.expectedDate with
  | some t => simp [specResolvedDate, resolveExpected, h]
  | none => cases h2 : o.orderDate <;> simp [specResolvedDate, resolveExpected, h, h2]

theorem resolve_unsorted_eq (orders : List Order) (sku : String) :
    (((orders.filter (fun o => o.dermaSku == sku)).filter
        (fun o => !(isReceived o))).filterMap
      (fun o => (resolveExpected o).map (fun t => (⟨o.quantity.getD 0, t⟩ : ROrder))))
    = specOpenOrders orders sku := by
  rw [List.filter_filter, specOpenOrders]
  induction orders with
  | nil => rfl
  | cons o t ih =>
    cases h2 : isReceived o with
    | true => simp [List.filter_cons, h2, ih]
    | false =>
      cases h1 : (o.dermaSku == sku) with
      | false => simp [List.filter_cons, h1, h2, ih]
      | true =>
        cases h3 : resolveExpected o with
        | none =>
          simp [List.filter_cons, h1, h2, h3, specResolvedDate_eq, List.filterMap_cons, ih]
        | some d =>
          simp [List.filter_cons, h1, h2, h3, specResolvedDate_eq, List.filterMap_cons, ih]

/-- **C7.** The resolved open-order list used for arrival folding consists of
exactly the sku's not-received orders whose expected-arrival date resolves
(explicit date, else orderDate + 3 calendar months, excluded when both fail),
and it is sorted ascending by resolved expected date. -/
theorem resolveSkuOrders_spec (orders : List Order) (sku : String) :
    (resolveSkuOrders orders sku).Perm (specOpenOrders orders sku) ∧
    (resolveSkuOrders orders sku).Pairwise (fun a b => a.expected ≤ b.expected) := by
  constructor
  · rw [resolveSkuOrders, resolve_unsorted_eq]
    exact List.perm_insertionSort _ _
  · exact List.sorted_insertionSort (fun a b : ROrder => a.expected ≤ b.expected) _

/-! ## Branch dispatch -/

theorem skuHistory_two (l : List Samp) (h : 2 ≤ l.length) :
    ∃ s0 s1 rest, l = s0 :: s1 :: rest := by
  match l with
  | [] => simp at h
  | [a] => simp at h
  | a :: b :: t => exact ⟨a, b, t, rfl⟩

theorem useProductForecast_hist (history : List HistoryItem) (orders : List Order)
    (minAmountData : List MinAmountItem) (sku : String) (currentStock : ℚ) (today : Int)
    (s0 s1 : Samp) (rest : List Samp) (hsh : skuHistoryOf history sku = s0 :: s1 :: rest) :
    useProductForecast history orders minAmountData sku currentStock today =
      forecastWithHistory (s0 :: s1 :: rest) orders sku (minAmountOf minAmountData sku)
        (minRateOf (minAmountOf minAmountData sku)) currentStock today := by
  rw [useProductForecast, hsh]

theorem useProductForecast_short (history : List HistoryItem) (orders : List Order)
    (minAmountData : List MinAmountItem) (sku : String) (currentStock : ℚ) (today : Int)
    (hsh : (skuHistoryOf history sku).length < 2) :
    useProductForecast history orders minAmountData sku currentStock today =
      (if 0 < currentStock then
        forecastNoHistory orders sku (minAmountOf minAmountData sku)
          (minRateOf (minAmountOf minAmountData sku)) currentStock today
      else
        { chartData := [], declineRate := some 0, minAmount := minAmountOf minAmountData sku,
          realRate := some 0, minRate := minRateOf (minAmountOf minAmountData sku) }) := by
  rw [useProductForecast]
  match h : skuHistoryOf history sku with
  | [] => rfl
  | [a] => rfl
  | a :: b :: t =>
    rw [h] at hsh
    exact absurd hsh (by simp)

/-! ## C1: forecast-rate selection -/

/-- **C1.** With at least 2 deduplicated samples, `realRate` is the regression
slope; `declineRate` is `−minAmount/180` whenever `minAmount` is present for
the sku (regardless of the slope) and the regression slope otherwise. -/
theorem declineRate_minAmount_override (history : List HistoryItem) (orders : List Order)
    (minAmountData : List MinAmountItem) (sku : String) (currentStock : ℚ) (today : Int)
    (h2 : 2 ≤ (skuHistoryOf history sku).length) :
    (useProductForecast history orders minAmountData sku currentStock today).realRate =
      slopeJs (skuHistoryOf history sku) ∧
    (∀ a, minAmountOf minAmountData sku = some a →
      (useProductForecast history orders minAmountData sku currentStock today).declineRate =
        some (-(a / 180))) ∧
    (minAmountOf minAmountData sku = none →
      (useProductForecast history orders minAmountData sku currentStock today).declineRate =
        slopeJs (skuHistoryOf history sku)) := by
  obtain ⟨s0, s1, rest, hsh⟩ := skuHistory_two _ h2
  rw [useProductForecast_hist history orders minAmountData sku currentStock today s0 s1 rest hsh]
  refine ⟨by simp [forecastWithHistory, hsh], ?_, ?_⟩
  · intro a ha
    simp [forecastWithHistory, ha, minRateOf]
  · intro ha
    simp [forecastWithHistory, ha, hsh]

theorem declineRate_minAmount_override_witness :
    (useProductForecast
        [⟨some (mkDate 2024 0 1), "A", 100⟩, ⟨some (mkDate 2024 0 8), "A", 100⟩,
         ⟨some (mkDate 2024 0 15), "A", 86⟩]
        [] [⟨"A", 360⟩] "A" 86 (mkDate 2024 0 15)).declineRate = some (-(360 / 180)) :=
  (declineRate_minAmount_override
    [⟨some (mkDate 2024 0 1), "A", 100⟩, ⟨some (mkDate 2024 0 8), "A", 100⟩,
     ⟨some (mkDate 2024 0 15), "A", 86⟩]
    [] [⟨"A", 360⟩] "A" 86 (mkDate 2024 0 15) (by decide)).2.1 360 (by decide)

/-! ## C4: the regression slope -/

/-- **C4.** With at least 2 deduplicated samples, `realRate` is the
ordinary-least-squares slope `(nΣxy − ΣxΣy) / (nΣx² − (Σx)²)` of quantity
against elapsed days since the first sample (under JS float division: the
`0/0` case, reachable only when every `x` is equal, is NaN). -/
theorem realRate_ols (history : List HistoryItem) (orders : List Order)
    (minAmountData : List MinAmountItem) (sku : String) (currentStock : ℚ) (today : Int)
    (s0 s1 : Samp) (rest : List Samp) (hsh : skuHistoryOf history sku = s0 :: s1 :: rest) :
    (useProductForecast history orders minAmountData sku currentStock today).realRate =
      (let l := s0 :: s1 :: rest
       let pts := l.map (fun h => (((h.t - s0.t : Int) : ℚ), h.q))
       let n : ℚ := (l.length : ℚ)
       let sx := (pts.map (fun p => p.1)).sum
       let sy := (pts.map (fun p => p.2)).sum
       let sxy := (pts.map (fun p => p.1 * p.2)).sum
       let sx2 := (pts.map (fun p => p.1 * p.1)).sum
       if n * sx2 - sx * sx = 0 then none else some ((n * sxy - sx * sy) / (n * sx2 - sx * sx))) := by
  rw [useProductForecast_hist history orders minAmountData sku currentStock today s0 s1 rest hsh]
  simp only [forecastWithHistory, hsh]
  rfl

theorem realRate_ols_witness :
    (useProductForecast
        [⟨some (mkDate 2024 0 1), "A", 100⟩, ⟨some (mkDate 2024 0 8), "A", 100⟩,
         ⟨some (mkDate 2024 0 15), "A", 86⟩]
        [] [] "A" 86 (mkDate 2024 0 15)).realRate = some (-1) := by
  rw [realRate_ols
    [⟨some (mkDate 2024 0 1), "A", 100⟩, ⟨some (mkDate 2024 0 8), "A", 100⟩,
     ⟨some (mkDate 2024 0 15), "A", 86⟩]
    [] [] "A" 86 (mkDate 2024 0 15)
    ⟨mkDate 2024 0 1, 100⟩ ⟨mkDate 2024 0 8, 100⟩ [⟨mkDate 2024 0 15, 86⟩] (by decide)]
  decide

/-! ## Structure of the produced chart -/

/-- The forecast start date actually used by the code: `max(today, last history
date)` when at least 2 deduplicated samples remain, otherwise `today`. -/
def codeForecastStart (history : List HistoryItem) (sku : String) (today : Int) : Int :=
  match skuHistoryOf history sku with
  | s0 :: s1 :: rest => fStartOf (s0 :: s1 :: rest) today
  | _ => today

/-- The forecast start date in the spec's words: `max(today, last history
date)` whenever any usable history sample exists. -/
def specForecastStart (history : List HistoryItem) (sku : String) (today : Int) : Int :=
  match skuHistoryOf history sku with
  | [] => today
  | l => max today (lastTOf l)

/-- `startQty`: current stock plus the quantities of resolved open orders due
on or before the forecast start date. -/
def specStartQty (ords : List ROrder) (fS : Int) (cs : ℚ) : ℚ :=
  cs + ((ords.filter (fun o => decide (o.expected ≤ fS))).map (fun o => (o.qty : ℚ))).sum

theorem foldl_overdue (fS : Int) (ords : List ROrder) :
    ∀ init : ℚ,
      ords.foldl (fun acc o => if o.expected ≤ fS then acc + (o.qty : ℚ) else acc) init =
        init + ((ords.filter (fun o => decide (o.expected ≤ fS))).map (fun o => (o.qty : ℚ))).sum := by
  induction ords with
  | nil => intro init; simp
  | cons o t ih =>
    intro init
    by_cases h : o.expected ≤ fS
    · simp [List.foldl_cons, List.filter_cons, h, ih]
      ring
    · simp [List.foldl_cons, List.filter_cons, h, ih]

theorem genFuture_length (fStart : Int) (slope : JsNum) (ords : List ROrder) (hB : Bool)
    (mA : Option ℚ) :
    ∀ (c i : ℕ) (rf rw : JsNum), (genFuture fStart slope ords hB mA i c rf rw).length = c := by
  intro c
  induction c with
  | zero => intro i rf rw; rfl
  | succ c ih => intro i rf rw; simp only [genFuture, List.length_cons, ih]

theorem genFuture_get (fStart : Int) (slope : JsNum) (ords : List ROrder) (hB : Bool)
    (mA : Option ℚ) :
    ∀ (c i k : ℕ) (rf rw : JsNum), k < c →
      ((genFuture fStart slope ords hB mA i c rf rw).get? k).map (fun p => p.date) =
        some (formatDateShort (fStart + ((i : Int) + (k : Int)) * 7)) ∧
      ((genFuture fStart slope ords hB mA i c rf rw).get? k).map (fun p => p.quantity) =
        some JsVal.vnull := by
  intro c
  induction c with
  | zero => intro i k rf rw hk; exact absurd hk (by omega)
  | succ c ih =>
    intro i k rf rw hk
    cases k with
    | zero =>
      constructor
      · simp [genFuture]
      · simp [genFuture]
    | succ k =>
      have hk2 : k < c := by omega
      have harg : ((((i + 1 : ℕ)) : Int) + (k : Int)) = ((i : Int) + ((k + 1 : ℕ) : Int)) := by
        push_cast; ring
      constructor
      · simp only [genFuture, List.get?_cons_succ]
        rw [(ih (i + 1) k _ _ hk2).1, harg]
      · simp only [genFuture, List.get?_cons_succ]
        rw [(ih (i + 1) k _ _ hk2).2]

theorem toVal_ne_vnull (a : JsNum) : toVal a ≠ JsVal.vnull := by
  cases a <;> simp [toVal]

theorem genFuture_onTheWay_present (fStart : Int) (slope : JsNum) (ords : List ROrder)
    (mA : Option ℚ) :
    ∀ (c i : ℕ) (rf rw : JsNum) (p : ForecastPoint),
      p ∈ genFuture fStart slope ords true mA i c rf rw → p.onTheWay ≠ JsVal.vnull := by
  intro c
  induction c with
  | zero => intro i rf rw p hp; simp [genFuture] at hp
  | succ c ih =>
    intro i rf rw p hp
    simp only [genFuture, List.mem_cons] at hp
    rcases hp with h | h
    · subst h; simpa using toVal_ne_vnull _
    · exact ih _ _ _ _ h

theorem genFuture_onTheWay_absent (fStart : Int) (slope : JsNum) (ords : List ROrder)
    (mA : Option ℚ) :
    ∀ (c i : ℕ) (rf rw : JsNum) (p : ForecastPoint),
      p ∈ genFuture fStart slope ords false mA i c rf rw → p.onTheWay = JsVal.vnull := by
  intro c
  induction c with
  | zero => intro i rf rw p hp; simp [genFuture] at hp
  | succ c ih =>
    intro i rf rw p hp
    simp only [genFuture, List.mem_cons] at hp
    rcases hp with h | h
    · subst h; rfl
    · exact ih _ _ _ _ h

theorem updateFirst_length (p : α → Bool) (f : α → α) :
    ∀ l : List α, (updateFirst p f l).length = l.length := by
  intro l
  induction l with
  | nil => rfl
  | cons a t ih =>
    by_cases h : p a = true
    · simp [updateFirst, h]
    · simp [updateFirst, h, ih]

theorem mem_updateFirst (p : α → Bool) (f : α → α) :
    ∀ (l : List α) (x : α), x ∈ updateFirst p f l → x ∈ l ∨ ∃ y ∈ l, x = f y := by
  intro l
  induction l with
  | nil => intro x hx; simp [updateFirst] at hx
  | cons a t ih =>
    intro x hx
    by_cases h : p a = true
    · simp only [updateFirst, if_pos h, List.mem_cons] at hx
      rcases hx with h2 | h2
      · exact Or.inr ⟨a, List.mem_cons_self a t, h2⟩
      · exact Or.inl (List.mem_cons_of_mem a h2)
    · simp only [updateFirst, if_neg h, List.mem_cons] at hx
      rcases hx with h2 | h2
      · exact Or.inl (h2 ▸ List.mem_cons_self a t)
      · rcases ih x h2 with h3 | ⟨y, hy, hxy⟩
        · exact Or.inl (List.mem_cons_of_mem a h3)
        · exact Or.inr ⟨y, List.mem_cons_of_mem a hy, hxy⟩

theorem find?_updateFirst (p : α → Bool) (f : α → α)
    (hpf : ∀ x, p x = true → p (f x) = true) :
    ∀ (l : List α) (x : α), l.find? p = some x →
      (updateFirst p f l).find? p = some (f x) := by
  intro l
  induction l with
  | nil => intro x hx; simp at hx
  | cons a t ih =>
    intro x hx
    by_cases h : p a = true
    · rw [List.find?_cons_of_pos _ h] at hx
      cases hx
      simp only [updateFirst, if_pos h]
      exact List.find?_cons_of_pos _ (hpf a h)
    · rw [List.find?_cons_of_neg _ (by simp [h])] at hx
      simp only [updateFirst, if_neg h]
      rw [List.find?_cons_of_neg _ (by simp [h])]
      exact ih x hx

/-! ## Anchor lemmas -/

theorem anchorMatchB_anchorUpdate (today : Int) (S : ℚ) (n : ℕ) (x : ForecastPoint)
    (h : anchorMatchB today x = true) : anchorMatchB today (anchorUpdate S n x) = true := by
  simp only [anchorMatchB, decide_eq_true_eq] at h ⊢
  exact ⟨h.1, by simp [anchorUpdate]⟩

theorem anchors_onTheWay_null (l : List Samp) (mA : Option ℚ) (cs : ℚ) (today : Int) :
    ∀ p ∈ anchorsOf l mA cs today, p.onTheWay = JsVal.vnull := by
  intro p hp
  rw [anchorsOf] at hp
  by_cases h : lastTOf l = today
  · rw [if_pos h] at hp
    simp only [histPtsOf, List.mem_map] at hp
    obtain ⟨iv, _, hiv⟩ := hp
    rw [← hiv]
  · rw [if_neg h] at hp
    rcases List.mem_append.mp hp with h2 | h2
    · simp only [histPtsOf, List.mem_map] at h2
      obtain ⟨iv, _, hiv⟩ := h2
      rw [← hiv]
    · rw [List.mem_singleton.mp h2]

theorem anchors_find_exists (l : List Samp) (hne : l ≠ []) (mA : Option ℚ) (cs : ℚ)
    (today : Int) :
    ∃ x, (anchorsOf l mA cs today).find? (anchorMatchB today) = some x := by
  rw [← Option.isSome_iff_exists, List.find?_isSome]
  rw [anchorsOf]
  by_cases h : lastTOf l = today
  · rw [if_pos h]
    have hlast : l.getLast? = some (l.getLast hne) := List.getLast?_eq_getLast l hne
    have hget : l.get? (l.length - 1) = some (l.getLast hne) := by
      rw [← List.getLast?_eq_get?]; exact hlast
    have hgetp : (histPtsOf l mA cs).get? (l.length - 1) =
        some { date := formatDateShort (l.getLast hne).t,
               quantity := JsVal.vnum (l.getLast hne).q,
               forecast := JsVal.vnum cs, onTheWay := JsVal.vnull,
               minAmount := optVal mA } := by
      rw [histPtsOf, List.get?_map, List.get?_enum, hget]
      simp
    refine ⟨_, List.get?_mem hgetp, ?_⟩
    have hlt : lastTOf l = (l.getLast hne).t := by
      simp [lastTOf, hlast]
    simp only [anchorMatchB, decide_eq_true_eq]
    exact ⟨by rw [← hlt, h], by simp⟩
  · rw [if_neg h]
    refine ⟨_, List.mem_append_right _ (List.mem_singleton_self _), ?_⟩
    simp [anchorMatchB]

/-! ## Structure of the two generating branches -/

theorem forecastWithHistory_structure (s0 s1 : Samp) (rest : List Samp)
    (orders : List Order) (sku : String) (mA : Option ℚ) (minRate cs : ℚ) (today : Int) :
    ∃ anchors2 : List ForecastPoint,
      (forecastWithHistory (s0 :: s1 :: rest) orders sku mA minRate cs today).chartData =
        anchors2 ++
          genFuture (fStartOf (s0 :: s1 :: rest) today)
            (forecastWithHistory (s0 :: s1 :: rest) orders sku mA minRate cs today).declineRate
            (resolveSkuOrders orders sku)
            (decide (0 < (resolveSkuOrders orders sku).length)) mA 1 26
            (some (specStartQty (resolveSkuOrders orders sku)
              (fStartOf (s0 :: s1 :: rest) today) cs))
            (some (specStartQty (resolveSkuOrders orders sku)
              (fStartOf (s0 :: s1 :: rest) today) cs)) ∧
      ((forecastWithHistory (s0 :: s1 :: rest) orders sku mA minRate cs today).chartData.find?
          (anchorMatchB today)).map (fun p => p.forecast) =
        some (JsVal.vnum (specStartQty (resolveSkuOrders orders sku)
          (fStartOf (s0 :: s1 :: rest) today) cs)) ∧
      ((forecastWithHistory (s0 :: s1 :: rest) orders sku mA minRate cs today).chartData.find?
          (anchorMatchB today)).map (fun p => p.onTheWay) =
        some (if 0 < (resolveSkuOrders orders sku).length then
          JsVal.vnum (specStartQty (resolveSkuOrders orders sku)
            (fStartOf (s0 :: s1 :: rest) today) cs)
        else JsVal.vnull) ∧
      ∀ p ∈ anchors2, p.onTheWay = JsVal.vnull ∨
        (0 < (resolveSkuOrders orders sku).length ∧
          p.onTheWay = JsVal.vnum (specStartQty (resolveSkuOrders orders sku)
            (fStartOf (s0 :: s1 :: rest) today) cs)) := by
  have hstart : cs + (resolveSkuOrders orders sku).foldl
      (fun acc o => if o.expected ≤ fStartOf (s0 :: s1 :: rest) today then acc + (o.qty : ℚ)
        else acc) 0 =
      specStartQty (resolveSkuOrders orders sku) (fStartOf (s0 :: s1 :: rest) today) cs := by
    rw [foldl_overdue, specStartQty]
    ring
  have hres : forecastWithHistory (s0 :: s1 :: rest) orders sku mA minRate cs today =
      { chartData := updateFirst (anchorMatchB today)
          (anchorUpdate (specStartQty (resolveSkuOrders orders sku)
            (fStartOf (s0 :: s1 :: rest) today) cs) (resolveSkuOrders orders sku).length)
          (anchorsOf (s0 :: s1 :: rest) mA cs today) ++
          genFuture (fStartOf (s0 :: s1 :: rest) today)
            (if mA.isSome then some minRate else slopeJs (s0 :: s1 :: rest))
            (resolveSkuOrders orders sku)
            (decide (0 < (resolveSkuOrders orders sku).length)) mA 1 26
            (some (specStartQty (resolveSkuOrders orders sku)
              (fStartOf (s0 :: s1 :: rest) today) cs))
            (some (specStartQty (resolveSkuOrders orders sku)
              (fStartOf (s0 :: s1 :: rest) today) cs)),
        declineRate := if mA.isSome then some minRate else slopeJs (s0 :: s1 :: rest),
        minAmount := mA, realRate := slopeJs (s0 :: s1 :: rest), minRate := minRate } := by
    simp only [forecastWithHistory]
    rw [hstart]
  obtain ⟨x0, hx0⟩ := anchors_find_exists (s0 :: s1 :: rest) (by simp) mA cs today
  have hx0mem := List.mem_of_find?_eq_some hx0
  have hx0null := anchors_onTheWay_null (s0 :: s1 :: rest) mA cs today x0 hx0mem
  have hupd := find?_updateFirst (anchorMatchB today)
    (anchorUpdate (specStartQty (resolveSkuOrders orders sku)
      (fStartOf (s0 :: s1 :: rest) today) cs) (resolveSkuOrders orders sku).length)
    (fun x hx => anchorMatchB_anchorUpdate today _ _ x hx) _ x0 hx0
  rw [hres]
  refine ⟨_, rfl, ?_, ?_, ?_⟩
  · rw [List.find?_append, hupd]
    simp [anchorUpdate]
  · rw [List.find?_append, hupd]
    by_cases h : 0 < (resolveSkuOrders orders sku).length
    · simp [anchorUpdate, h]
    · simp [anchorUpdate, h, hx0null]
  · intro p hp
    rcases mem_updateFirst _ _ _ p hp with h2 | ⟨y, hy, hpy⟩
    · exact Or.inl (anchors_onTheWay_null _ mA cs today p h2)
    · by_cases h : 0 < (resolveSkuOrders orders sku).length
      · refine Or.inr ⟨h, ?_⟩
        rw [hpy]
        simp [anchorUpdate, h]
      · refine Or.inl ?_
        rw [hpy]
        simp only [anchorUpdate, if_neg h]
        exact anchors_onTheWay_null _ mA cs today y hy

theorem forecastNoHistory_structure (orders : List Order) (sku : String) (mA : Option ℚ)
    (minRate cs : ℚ) (today : Int) :
    ∃ anchors2 : List ForecastPoint,
      (forecastNoHistory orders sku mA minRate cs today).chartData =
        anchors2 ++
          genFuture today (forecastNoHistory orders sku mA minRate cs today).declineRate
            (resolveSkuOrders orders sku)
            (decide (0 < (resolveSkuOrders orders sku).length)) mA 1 26
            (some (specStartQty (resolveSkuOrders orders sku) today cs))
            (some (specStartQty (resolveSkuOrders orders sku) today cs)) ∧
      ((forecastNoHistory orders sku mA minRate cs today).chartData.find?
          (anchorMatchB today)).map (fun p => p.forecast) =
        some (JsVal.vnum (specStartQty (resolveSkuOrders orders sku) today cs)) ∧
      ((forecastNoHistory orders sku mA minRate cs today).chartData.find?
          (anchorMatchB today)).map (fun p => p.onTheWay) =
        some (if 0 < (resolveSkuOrders orders sku).length then
          JsVal.vnum (specStartQty (resolveSkuOrders orders sku) today cs)
        else JsVal.vnull) ∧
      ∀ p ∈ anchors2, p.onTheWay = JsVal.vnull ∨
        (0 < (resolveSkuOrders orders sku).length ∧
          p.onTheWay = JsVal.vnum (specStartQty (resolveSkuOrders orders sku) today cs)) := by
  have hstart : cs + (resolveSkuOrders orders sku).foldl
      (fun acc o => if o.expected ≤ today then acc + (o.qty : ℚ) else acc) 0 =
      specStartQty (resolveSkuOrders orders sku) today cs := by
    rw [foldl_overdue, specStartQty]
    ring
  have hmatch : anchorMatchB today
      { date := formatDateShort today, quantity := JsVal.vnum cs,
        forecast := JsVal.vnum (specStartQty (resolveSkuOrders orders sku) today cs),
        onTheWay := if 0 < (resolveSkuOrders orders sku).length then
          JsVal.vnum (specStartQty (resolveSkuOrders orders sku) today cs)
        else JsVal.vnull,
        minAmount := optVal mA } = true := by
    simp [anchorMatchB]
  have hres : forecastNoHistory orders sku mA minRate cs today =
      { chartData :=
          { date := formatDateShort today, quantity := JsVal.vnum cs,
            forecast := JsVal.vnum (specStartQty (resolveSkuOrders orders sku) today cs),
            onTheWay := if 0 < (resolveSkuOrders orders sku).length then
              JsVal.vnum (specStartQty (resolveSkuOrders orders sku) today cs)
            else JsVal.vnull,
            minAmount := optVal mA } ::
          genFuture today (some (if mA.isSome then minRate else 0))
            (resolveSkuOrders orders sku)
            (decide (0 < (resolveSkuOrders orders sku).length)) mA 1 26
            (some (specStartQty (resolveSkuOrders orders sku) today cs))
            (some (specStartQty (resolveSkuOrders orders sku) today cs)),
        declineRate := some (if mA.isSome then minRate else 0),
        minAmount := mA, realRate := some 0, minRate := minRate } := by
    simp only [forecastNoHistory]
    rw [hstart]
  rw [hres]
  refine ⟨[_], rfl, ?_, ?_, ?_⟩
  · rw [List.find?_cons_of_pos _ hmatch]
    rfl
  · rw [List.find?_cons_of_pos _ hmatch]
    rfl
  · intro p hp
    rw [List.mem_singleton.mp hp]
    by_cases h : 0 < (resolveSkuOrders orders sku).length
    · exact Or.inr ⟨h, by simp [h]⟩
    · exact Or.inl (by simp [h])

theorem forecastWithHistory_minAmount (l : List Samp) (orders : List Order) (sku : String)
    (mA : Option ℚ) (minRate cs : ℚ) (today : Int) :
    (forecastWithHistory l orders sku mA minRate cs today).minAmount = mA := rfl

theorem forecastNoHistory_minAmount (orders : List Order) (sku : String)
    (mA : Option ℚ) (minRate cs : ℚ) (today : Int) :
    (forecastNoHistory orders sku mA minRate cs today).minAmount = mA := rfl

theorem codeForecastStart_hist (history : List HistoryItem) (sku : String) (today : Int)
    (s0 s1 : Samp) (rest : List Samp) (hsh : skuHistoryOf history sku = s0 :: s1 :: rest) :
    codeForecastStart history sku today = fStartOf (s0 :: s1 :: rest) today := by
  rw [codeForecastStart, hsh]

theorem codeForecastStart_short (history : List HistoryItem) (sku : String) (today : Int)
    (hsh : (skuHistoryOf history sku).length < 2) :
    codeForecastStart history sku today = today := by
  rw [codeForecastStart]
  match h : skuHistoryOf history sku with
  | [] => rfl
  | [a] => rfl
  | a :: b :: t =>
    rw [h] at hsh
    exact absurd hsh (by simp)

/-- Master structure of the produced chart: the output splits into anchor
points followed by the 26-point projection started at `startQty`, and the
first today-labelled non-null-forecast point carries `startQty`. -/
theorem useProductForecast_structure (history : List HistoryItem) (orders : List Order)
    (mad : List MinAmountItem) (sku : String) (cs : ℚ) (today : Int)
    (hbr : 2 ≤ (skuHistoryOf history sku).length ∨ 0 < cs) :
    ∃ anchors2 : List ForecastPoint,
      (useProductForecast history orders mad sku cs today).chartData =
        anchors2 ++
          genFuture (codeForecastStart history sku today)
            (useProductForecast history orders mad sku cs today).declineRate
            (resolveSkuOrders orders sku)
            (decide (0 < (resolveSkuOrders orders sku).length))
            (useProductForecast history orders mad sku cs today).minAmount 1 26
            (some (specStartQty (resolveSkuOrders orders sku)
              (codeForecastStart history sku today) cs))
            (some (specStartQty (resolveSkuOrders orders sku)
              (codeForecastStart history sku today) cs)) ∧
      ((useProductForecast history orders mad sku cs today).chartData.find?
          (anchorMatchB today)).map (fun p => p.forecast) =
        some (JsVal.vnum (specStartQty (resolveSkuOrders orders sku)
          (codeForecastStart history sku today) cs)) ∧
      ((useProductForecast history orders mad sku cs today).chartData.find?
          (anchorMatchB today)).map (fun p => p.onTheWay) =
        some (if 0 < (resolveSkuOrders orders sku).length then
          JsVal.vnum (specStartQty (resolveSkuOrders orders sku)
            (codeForecastStart history sku today) cs)
        else JsVal.vnull) ∧
      ∀ p ∈ anchors2, p.onTheWay = JsVal.vnull ∨
        (0 < (resolveSkuOrders orders sku).length ∧
          p.onTheWay = JsVal.vnum (specStartQty (resolveSkuOrders orders sku)
            (codeForecastStart history sku today) cs)) := by
  by_cases h2 : 2 ≤ (skuHistoryOf history sku).length
  · obtain ⟨s0, s1, rest, hsh⟩ := skuHistory_two _ h2
    rw [useProductForecast_hist history orders mad sku cs today s0 s1 rest hsh,
      codeForecastStart_hist history sku today s0 s1 rest hsh,
      forecastWithHistory_minAmount]
    exact forecastWithHistory_structure s0 s1 rest orders sku (minAmountOf mad sku)
      (minRateOf (minAmountOf mad sku)) cs today
  · have hcs : 0 < cs := hbr.resolve_left h2
    rw [useProductForecast_short history orders mad sku cs today (by omega), if_pos hcs,
      codeForecastStart_short history sku today (by omega),
      forecastNoHistory_minAmount]
    exact forecastNoHistory_structure orders sku (minAmountOf mad sku)
      (minRateOf (minAmountOf mad sku)) cs today

/-! ## C5: overdue-order folding into startQty -/

/-- The overdue-folding / projection-start property relative to a given
forecast start date `fS`: the first today-labelled anchor carries
`startQty = currentStock + Σ (overdue order quantities)` on `declineOnly`
(and on `withArrivals` when open orders exist), and the last 26 chart points
are the projection started at `startQty`. -/
def startQtyProp (history : List HistoryItem) (orders : List Order)
    (mad : List MinAmountItem) (sku : String) (cs : ℚ) (today fS : Int) : Prop :=
  ((useProductForecast history orders mad sku cs today).chartData.find?
      (anchorMatchB today)).map (fun p => p.forecast) =
    some (JsVal.vnum (specStartQty (resolveSkuOrders orders sku) fS cs)) ∧
  ((useProductForecast history orders mad sku cs today).chartData.find?
      (anchorMatchB today)).map (fun p => p.onTheWay) =
    some (if 0 < (resolveSkuOrders orders sku).length then
      JsVal.vnum (specStartQty (resolveSkuOrders orders sku) fS cs)
    else JsVal.vnull) ∧
  (useProductForecast history orders mad sku cs today).chartData.drop
      ((useProductForecast history orders mad sku cs today).chartData.length - 26) =
    genFuture fS (useProductForecast history orders mad sku cs today).declineRate
      (resolveSkuOrders orders sku) (decide (0 < (resolveSkuOrders orders sku).length))
      (useProductForecast history orders mad sku cs today).minAmount 1 26
      (some (specStartQty (resolveSkuOrders orders sku) fS cs))
      (some (specStartQty (resolveSkuOrders orders sku) fS cs))

/-- The last 26 chart points are exactly the generated projection block. -/
theorem chartData_drop26 (history : List HistoryItem) (orders : List Order)
    (mad : List MinAmountItem) (sku : String) (cs : ℚ) (today : Int)
    (hbr : 2 ≤ (skuHistoryOf history sku).length ∨ 0 < cs) :
    (useProductForecast history orders mad sku cs today).chartData.drop
        ((useProductForecast history orders mad sku cs today).chartData.length - 26) =
      genFuture (codeForecastStart history sku today)
        (useProductForecast history orders mad sku cs today).declineRate
        (resolveSkuOrders orders sku) (decide (0 < (resolveSkuOrders orders sku).length))
        (useProductForecast history orders mad sku cs today).minAmount 1 26
        (some (specStartQty (resolveSkuOrders orders sku)
          (codeForecastStart history sku today) cs))
        (some (specStartQty (resolveSkuOrders orders sku)
          (codeForecastStart history sku today) cs)) := by
  obtain ⟨anchors2, hcd, _, _, _⟩ :=
    useProductForecast_structure history orders mad sku cs today hbr
  rw [hcd]
  have hlen : (anchors2 ++
      genFuture (codeForecastStart history sku today)
        (useProductForecast history orders mad sku cs today).declineRate
        (resolveSkuOrders orders sku)
        (decide (0 < (resolveSkuOrders orders sku).length))
        (useProductForecast history orders mad sku cs today).minAmount 1 26
        (some (specStartQty (resolveSkuOrders orders sku)
          (codeForecastStart history sku today) cs))
        (some (specStartQty (resolveSkuOrders orders sku)
          (codeForecastStart history sku today) cs))).length - 26 = anchors2.length := by
    rw [List.length_append, genFuture_length]
    omega
  rw [hlen, List.drop_left]

/-- **C5 (amended).** Whenever the engine emits any points, resolved open
orders due on or before the forecast start date are summed into
`startQty = currentStock + overdue`, the first today-labelled non-null-forecast
anchor point gets `declineOnly = startQty` (and `withArrivals = startQty` when
open orders exist), and the 26-point projection starts from `startQty`.  The
forecast start date is `max(today, last history date)` when ≥ 2 deduplicated
samples remain and `today` otherwise (`codeForecastStart`). -/
theorem startQty_overdue_folding (history : List HistoryItem) (orders : List Order)
    (mad : List MinAmountItem) (sku : String) (cs : ℚ) (today : Int)
    (hbr : 2 ≤ (skuHistoryOf history sku).length ∨ 0 < cs) :
    startQtyProp history orders mad sku cs today (codeForecastStart history sku today) := by
  obtain ⟨anchors2, hcd, hfc, hot, _⟩ :=
    useProductForecast_structure history orders mad sku cs today hbr
  exact ⟨hfc, hot, chartData_drop26 history orders mad sku cs today hbr⟩

theorem startQty_overdue_folding_witness :
    startQtyProp [] [] [] "A" 10 0 (codeForecastStart [] "A" 0) :=
  startQty_overdue_folding [] [] [] "A" 10 0 (Or.inr (by norm_num))

/-! ## C3: the 26-point future block -/

/-- The sequence ends with exactly 26 future forecast points spaced 7 days
apart starting at `fS` (dates `fS + 7`, `fS + 14`, …, `fS + 182`). -/
def futureBlockProp (cd : List ForecastPoint) (fS : Int) : Prop :=
  26 ≤ cd.length ∧ ∀ i : ℕ, i < 26 →
    ((cd.drop (cd.length - 26)).get? i).map (fun p => p.date) =
      some (formatDateShort (fS + 7 * ((i : Int) + 1))) ∧
    ((cd.drop (cd.length - 26)).get? i).map (fun p => p.quantity) = some JsVal.vnull

/-- **C3 (amended).** With `currentStock > 0` the output ends with exactly 26
future forecast points spaced 7 days apart, starting from `max(today, last
history date)` when ≥ 2 deduplicated samples remain and from `today`
otherwise (`codeForecastStart`). -/
theorem chartData_future_block (history : List HistoryItem) (orders : List Order)
    (mad : List MinAmountItem) (sku : String) (cs : ℚ) (today : Int) (hcs : 0 < cs) :
    futureBlockProp (useProductForecast history orders mad sku cs today).chartData
      (codeForecastStart history sku today) := by
  obtain ⟨anchors2, hcd, _, _, _⟩ :=
    useProductForecast_structure history orders mad sku cs today (Or.inr hcs)
  constructor
  · rw [hcd, List.length_append, genFuture_length]
    omega
  · intro i hi
    rw [hcd]
    have hlen : (anchors2 ++
        genFuture (codeForecastStart history sku today)
          (useProductForecast history orders mad sku cs today).declineRate
          (resolveSkuOrders orders sku)
          (decide (0 < (resolveSkuOrders orders sku).length))
          (useProductForecast history orders mad sku cs today).minAmount 1 26
          (some (specStartQty (resolveSkuOrders orders sku)
            (codeForecastStart history sku today) cs))
          (some (specStartQty (resolveSkuOrders orders sku)
            (codeForecastStart history sku today) cs))).length - 26 = anchors2.length := by
      rw [List.length_append, genFuture_length]
      omega
    rw [hlen, List.drop_left]
    have hg := genFuture_get (codeForecastStart history sku today)
      (useProductForecast history orders mad sku cs today).declineRate
      (resolveSkuOrders orders sku)
      (decide (0 < (resolveSkuOrders orders sku).length))
      (useProductForecast history orders mad sku cs today).minAmount 26 1 i
      (some (specStartQty (resolveSkuOrders orders sku)
        (codeForecastStart history sku today) cs))
      (some (specStartQty (resolveSkuOrders orders sku)
        (codeForecastStart history sku today) cs)) hi
    have harg : codeForecastStart history sku today + (((1 : ℕ) : Int) + (i : Int)) * 7 =
        codeForecastStart history sku today + 7 * ((i : Int) + 1) := by
      push_cast
      ring
    constructor
    · rw [hg.1, harg]
    · exact hg.2

theorem chartData_future_block_witness :
    futureBlockProp (useProductForecast [] [] [] "A" 10 0).chartData
      (codeForecastStart [] "A" 0) :=
  chartData_future_block [] [] [] "A" 10 0 (by norm_num)

/-- A concrete input for C3/C5: a single future-dated usable history sample
(so the code takes the no-history branch anchored at today), positive stock,
and an open order due between today and that sample's date. -/
def cexToday : Int := mkDate 2024 0 1

def cexHist1 : List HistoryItem := [⟨some (cexToday + 10), "A", 50⟩]

def cexOrders1 : List Order := [⟨some cexToday, "A", some 30, "", some (cexToday + 5)⟩]

instance futureBlockPropDec (cd : List ForecastPoint) (fS : Int) :
    Decidable (futureBlockProp cd fS) := by
  unfold futureBlockProp
  infer_instance

instance startQtyPropDec (history : List HistoryItem) (orders : List Order)
    (mad : List MinAmountItem) (sku : String) (cs : ℚ) (today fS : Int) :
    Decidable (startQtyProp history orders mad sku cs today fS) := by
  unfold startQtyProp
  infer_instance

/-- **C3 (counterexample).** On a single future-dated history sample the claim's
start date `max(today, last history date)` is wrong: the code starts the
26-point projection at `today`. -/
theorem chartData_future_start_cex :
    ¬ (0 < (5 : ℚ) →
      futureBlockProp (useProductForecast cexHist1 [] [] "A" 5 cexToday).chartData
        (specForecastStart cexHist1 "A" cexToday)) := by
  decide

/-- **C5 (counterexample).** Same input plus an open order due between today
and the future-dated sample: with the claim's start date
`max(today, last history date)` the order would be folded as overdue, but the
code folds only orders due on or before `today`. -/
theorem startQty_spec_start_cex :
    ¬ ((2 ≤ (skuHistoryOf cexHist1 "A").length ∨ 0 < (5 : ℚ)) →
      startQtyProp cexHist1 cexOrders1 [] "A" 5 cexToday
        (specForecastStart cexHist1 "A" cexToday)) := by
  intro himp
  have h1 := (himp (Or.inr (by norm_num))).1
  have e1 : ((useProductForecast cexHist1 cexOrders1 [] "A" 5 cexToday).chartData.find?
      (anchorMatchB cexToday)).map (fun p => p.forecast) = some (JsVal.vnum 5) := by
    decide
  have e2 : specStartQty (resolveSkuOrders cexOrders1 "A")
      (specForecastStart cexHist1 "A" cexToday) 5 = 35 := by
    decide
  rw [e1, e2] at h1
  exact absurd h1 (by decide)

/-! ## C6: presence and absence of the withArrivals line -/

/-- **C6 (amended).** `onTheWay` is absent at every chart point when the sku
has no resolved open orders.  When at least one resolved open order exists it
is present at every point of the 26-point future block and at the updated
today-anchor point — but stays absent at earlier historical points. -/
theorem onTheWay_presence (history : List HistoryItem) (orders : List Order)
    (mad : List MinAmountItem) (sku : String) (cs : ℚ) (today : Int) :
    ((resolveSkuOrders orders sku).length = 0 →
      ∀ p ∈ (useProductForecast history orders mad sku cs today).chartData,
        p.onTheWay = JsVal.vnull) ∧
    (0 < (resolveSkuOrders orders sku).length →
      (∀ p ∈ (useProductForecast history orders mad sku cs today).chartData.drop
          ((useProductForecast history orders mad sku cs today).chartData.length - 26),
        p.onTheWay ≠ JsVal.vnull) ∧
      (∀ p, (useProductForecast history orders mad sku cs today).chartData.find?
          (anchorMatchB today) = some p → p.onTheWay ≠ JsVal.vnull)) := by
  by_cases hbr : 2 ≤ (skuHistoryOf history sku).length ∨ 0 < cs
  · obtain ⟨anchors2, hcd, hfc, hot, hmem⟩ :=
      useProductForecast_structure history orders mad sku cs today hbr
    constructor
    · intro h0 p hp
      rw [hcd] at hp
      rcases List.mem_append.mp hp with h2 | h2
      · rcases hmem p h2 with h3 | ⟨h3, _⟩
        · exact h3
        · omega
      · have hb : (decide (0 < (resolveSkuOrders orders sku).length)) = false := by
          simp [h0]
        rw [hb] at h2
        exact genFuture_onTheWay_absent _ _ _ _ _ _ _ _ _ h2
    · intro hpos
      constructor
      · intro p hp
        rw [chartData_drop26 history orders mad sku cs today hbr] at hp
        have hb : (decide (0 < (resolveSkuOrders orders sku).length)) = true := by
          simp [hpos]
        rw [hb] at hp
        exact genFuture_onTheWay_present _ _ _ _ _ _ _ _ _ hp
      · intro p hfind
        rw [hfind] at hot
        simp only [Option.map_some'] at hot
        have h2 := Option.some.inj hot
        rw [h2, if_pos hpos]
        simp
  · have h2 : (skuHistoryOf history sku).length < 2 := by
      rcases Nat.lt_or_ge (skuHistoryOf history sku).length 2 with h | h
      · exact h
      · exact absurd (Or.inl h) hbr
    have hcs : ¬ 0 < cs := fun h => hbr (Or.inr h)
    have hcd : (useProductForecast history orders mad sku cs today).chartData = [] := by
      rw [useProductForecast_short history orders mad sku cs today h2, if_neg hcs]
    constructor
    · intro _ p hp
      rw [hcd] at hp
      simp at hp
    · intro _
      constructor
      · intro p hp
        rw [hcd] at hp
        simp at hp
      · intro p hfind
        rw [hcd] at hfind
        simp at hfind

theorem onTheWay_presence_witness :
    (∀ p ∈ (useProductForecast [] [] [] "A" 10 0).chartData,
      p.onTheWay = JsVal.vnull) ∧
    (∀ p ∈ (useProductForecast [] [⟨some 0, "B", some 5, "", some 40⟩] [] "B" 10 0).chartData.drop
        ((useProductForecast [] [⟨some 0, "B", some 5, "", some 40⟩] [] "B" 10 0).chartData.length - 26),
      p.onTheWay ≠ JsVal.vnull) :=
  ⟨(onTheWay_presence [] [] [] "A" 10 0).1 (by decide),
   ((onTheWay_presence [] [⟨some 0, "B", some 5, "", some 40⟩] [] "B" 10 0).2 (by decide)).1⟩

/-- Concrete input for the C6 counterexample: two past history samples and one
open order; the first historical chart point keeps `onTheWay = null`. -/
def cexHist6 : List HistoryItem :=
  [⟨some cexToday, "B", 100⟩, ⟨some (cexToday + 7), "B", 90⟩]

def cexOrders6 : List Order := [⟨some cexToday, "B", some 5, "", some (cexToday + 40)⟩]

/-- **C6 (counterexample).** With at least one open order, `onTheWay` is *not*
present at every point: historical points other than the updated anchor keep
it absent. -/
theorem onTheWay_every_point_cex :
    ¬ ((((resolveSkuOrders cexOrders6 "B").length = 0 →
        ∀ p ∈ (useProductForecast cexHist6 cexOrders6 [] "B" 90 (cexToday + 7)).chartData,
          p.onTheWay = JsVal.vnull) ∧
      (0 < (resolveSkuOrders cexOrders6 "B").length →
        ∀ p ∈ (useProductForecast cexHist6 cexOrders6 [] "B" 90 (cexToday + 7)).chartData,
          p.onTheWay ≠ JsVal.vnull))) := by
  intro h
  have hpos : 0 < (resolveSkuOrders cexOrders6 "B").length := by decide
  have hhead : ∃ p ∈ (useProductForecast cexHist6 cexOrders6 [] "B" 90
      (cexToday + 7)).chartData, p.onTheWay = JsVal.vnull := by
    refine ⟨{ date := formatDateShort cexToday, quantity := JsVal.vnum 100,
              forecast := JsVal.vnull, onTheWay := JsVal.vnull,
              minAmount := JsVal.vnull }, ?_, rfl⟩
    decide
  obtain ⟨p, hpmem, hpnull⟩ := hhead
  exact h.2 hpos p hpmem hpnull

/-! ## C2: the critical-point scan -/

theorem leNum_gtNum_exclusive (v : JsVal) (mA : ℚ) :
    ¬(v.leNum mA = true ∧ v.gtNum mA = true) := by
  cases v with
  | vnull => simp [JsVal.leNum, JsVal.gtNum]
  | vnan => simp [JsVal.leNum, JsVal.gtNum]
  | vnum q =>
    simp only [JsVal.leNum, JsVal.gtNum, decide_eq_true_eq]
    rintro ⟨h1, h2⟩
    exact absurd h2 (not_lt.mpr h1)

theorem find?_some_index (p : α → Bool) :
    ∀ (l : List α) (a : α), l.find? p = some a →
      ∃ k, l.get? k = some a ∧ p a = true := by
  intro l
  induction l with
  | nil => intro a h; simp at h
  | cons b t ih =>
    intro a h
    by_cases hb : p b = true
    · rw [List.find?_cons_of_pos _ hb] at h
      cases h
      exact ⟨0, rfl, hb⟩
    · rw [List.find?_cons_of_neg _ (by simp [hb])] at h
      obtain ⟨k, hk, hpa⟩ := ih a h
      exact ⟨k + 1, by simpa using hk, hpa⟩

theorem filter_head?_eq_find? (p : α → Bool) :
    ∀ l : List α, (l.filter p).head? = l.find? p := by
  intro l
  induction l with
  | nil => rfl
  | cons b t ih =>
    by_cases hb : p b = true
    · rw [List.filter_cons_of_pos hb, List.find?_cons_of_pos _ hb]
      rfl
    · rw [List.filter_cons_of_neg (by simp [hb]), List.find?_cons_of_neg _ (by simp [hb])]
      exact ih

/-- Characterization of the `lastAboveIndex` fold: either nothing exceeds the
threshold and the accumulator is returned, or the fold returns the index of
the last value exceeding it. -/
theorem lastAbove_foldl (mA : ℚ) :
    ∀ (l : List JsVal) (s : ℕ) (acc : Int),
      ((List.enumFrom s l).foldl
          (fun acc iv => if iv.2.gtNum mA then (iv.1 : Int) else acc) acc = acc ∧
        ∀ i, ((l.getD i JsVal.vnull).gtNum mA) = false) ∨
      (∃ i, i < l.length ∧ ((l.getD i JsVal.vnull).gtNum mA) = true ∧
        (List.enumFrom s l).foldl
          (fun acc iv => if iv.2.gtNum mA then (iv.1 : Int) else acc) acc = ((s + i : ℕ) : Int) ∧
        ∀ j, i < j → ((l.getD j JsVal.vnull).gtNum mA) = false) := by
  intro l
  induction l with
  | nil =>
    intro s acc
    left
    exact ⟨rfl, fun i => by simp [JsVal.gtNum]⟩
  | cons a t ih =>
    intro s acc
    have hstep : (List.enumFrom s (a :: t)).foldl
        (fun acc iv => if iv.2.gtNum mA then (iv.1 : Int) else acc) acc =
        (List.enumFrom (s + 1) t).foldl
          (fun acc iv => if iv.2.gtNum mA then (iv.1 : Int) else acc)
          (if a.gtNum mA then (s : Int) else acc) := by
      rfl
    by_cases ha : a.gtNum mA = true
    · rcases ih (s + 1) (s : Int) with ⟨h1, h2⟩ | ⟨i, hi, hgt, hfold, hafter⟩
      · right
        refine ⟨0, by simp, by simpa using ha, ?_, ?_⟩
        · rw [hstep, if_pos ha, h1]
          simp
        · intro j hj
          cases j with
          | zero => omega
          | succ j => simpa using h2 j
      · right
        refine ⟨i + 1, by simpa using Nat.succ_lt_succ hi, by simpa using hgt, ?_, ?_⟩
        · rw [hstep, if_pos ha, hfold]
          congr 1
          omega
        · intro j hj
          cases j with
          | zero => omega
          | succ j => simpa using hafter j (by omega)
    · rcases ih (s + 1) acc with ⟨h1, h2⟩ | ⟨i, hi, hgt, hfold, hafter⟩
      · left
        refine ⟨?_, ?_⟩
        · rw [hstep, if_neg ha, h1]
        · intro i
          cases i with
          | zero => simpa using ha
          | succ i => simpa using h2 i
      · right
        refine ⟨i + 1, by simpa using Nat.succ_lt_succ hi, by simpa using hgt, ?_, ?_⟩
        · rw [hstep, if_neg ha, hfold]
          congr 1
          omega
        · intro j hj
          cases j with
          | zero => omega
          | succ j => simpa using hafter j (by omega)

theorem vals_getD_of_get? (fps : List ForecastPoint) (r : ℕ) (p : ForecastPoint)
    (h : fps.get? r = some p) :
    ((fps.map fallbackVal).getD r JsVal.vnull) = fallbackVal p := by
  rw [List.getD_eq_get?, List.get?_map, h]
  rfl

theorem vals_getD_oob (fps : List ForecastPoint) (r : ℕ) (h : fps.length ≤ r) :
    ((fps.map fallbackVal).getD r JsVal.vnull) = JsVal.vnull := by
  apply List.getD_eq_default
  simpa using h

/-- **C2.** With open orders present, the two-phase scan: a returned critical
point sits at an index whose (withArrivals ?? declineOnly) value is
`≤ minAmount` and after which no value exceeds `minAmount` (so the scan never
fires between two above-threshold points); and when no point is returned,
every `≤ minAmount` index is followed by a later above-threshold index. -/
theorem criticalPoint_final_descent (cd : List ForecastPoint) (mA : ℚ)
    (ho : hasOrdersOf cd = true) :
    (∀ p, criticalPoint cd (some mA) = some p →
      ∃ r, (fPointsOf cd).get? r = some p ∧
        (((fPointsOf cd).map fallbackVal).getD r JsVal.vnull).leNum mA = true ∧
        ∀ j, r < j →
          (((fPointsOf cd).map fallbackVal).getD j JsVal.vnull).gtNum mA = false) ∧
    (criticalPoint cd (some mA) = none →
      ∀ r, (((fPointsOf cd).map fallbackVal).getD r JsVal.vnull).leNum mA = true →
        ∃ j, r < j ∧
          (((fPointsOf cd).map fallbackVal).getD j JsVal.vnull).gtNum mA = true) := by
  have hcp : criticalPoint cd (some mA) =
      (if (((fPointsOf cd).map fallbackVal).enum.foldl
            (fun (acc : Int) (iv : ℕ × JsVal) =>
              if iv.2.gtNum mA then (iv.1 : Int) else acc) (-1)) = -1 then
        ((fPointsOf cd).filter (fun p => (fallbackVal p).leNum mA)).head?
      else
        ((fPointsOf cd).drop
            ((((fPointsOf cd).map fallbackVal).enum.foldl
              (fun (acc : Int) (iv : ℕ × JsVal) =>
                if iv.2.gtNum mA then (iv.1 : Int) else acc) (-1)).toNat + 1)).find?
          (fun p => (fallbackVal p).leNum mA)) := by
    simp only [criticalPoint, ho, Bool.not_true, Bool.false_eq_true, if_false]
  have henum : ((fPointsOf cd).map fallbackVal).enum =
      List.enumFrom 0 ((fPointsOf cd).map fallbackVal) := rfl
  rcases lastAbove_foldl mA ((fPointsOf cd).map fallbackVal) 0 (-1) with
    ⟨hL, hnone⟩ | ⟨i, hi, hgt, hfold, hafter⟩
  · -- nothing exceeds the threshold: fallback scan
    rw [henum, hL] at hcp
    rw [if_pos rfl, filter_head?_eq_find?] at hcp
    constructor
    · intro p hp
      rw [hcp] at hp
      obtain ⟨k, hk, hpred⟩ := find?_some_index _ _ _ hp
      exact ⟨k, hk, by rw [vals_getD_of_get? _ _ _ hk]; exact hpred,
        fun j _ => hnone j⟩
    · intro hnonecp r hle
      rw [hcp] at hnonecp
      by_cases hr : r < (fPointsOf cd).length
      · have hp : (fPointsOf cd).get? r = some ((fPointsOf cd).get ⟨r, hr⟩) :=
          List.get?_eq_get hr
        have hmem := List.get?_mem hp
        have := List.find?_eq_none.mp hnonecp _ hmem
        rw [vals_getD_of_get? _ _ _ hp] at hle
        exact absurd hle (by simpa using this)
      · rw [vals_getD_oob _ _ (by omega)] at hle
        simp [JsVal.leNum] at hle
  · -- some index exceeds: scan after the last such index
    rw [henum, hfold] at hcp
    have hne : ¬(((0 + i : ℕ) : Int) = -1) := by
      omega
    rw [if_neg hne] at hcp
    have htn : (((0 + i : ℕ) : Int)).toNat = i := by
      simp
    rw [htn] at hcp
    constructor
    · intro p hp
      rw [hcp] at hp
      obtain ⟨k, hk, hpred⟩ := find?_some_index _ _ _ hp
      rw [List.get?_drop] at hk
      refine ⟨i + 1 + k, hk, by rw [vals_getD_of_get? _ _ _ hk]; exact hpred, ?_⟩
      intro j hj
      exact hafter j (by omega)
    · intro hnonecp r hle
      rw [hcp] at hnonecp
      have hlen : ((fPointsOf cd).map fallbackVal).length = (fPointsOf cd).length := by
        simp
      by_cases hr : r < (fPointsOf cd).length
      · rcases Nat.lt_or_ge i r with hcmp | hcmp
        · -- r after the last above index: the drop scan saw it and rejected it
          have hp : (fPointsOf cd).get? r = some ((fPointsOf cd).get ⟨r, hr⟩) :=
            List.get?_eq_get hr
          have hdropget : ((fPointsOf cd).drop (i + 1)).get? (r - (i + 1)) =
              some ((fPointsOf cd).get ⟨r, hr⟩) := by
            rw [List.get?_drop]
            rw [show i + 1 + (r - (i + 1)) = r by omega]
            exact hp
          have hmem := List.get?_mem hdropget
          have := List.find?_eq_none.mp hnonecp _ hmem
          rw [vals_getD_of_get? _ _ _ hp] at hle
          exact absurd hle (by simpa using this)
        · -- r at or before the last above index
          rcases Nat.eq_or_lt_of_le hcmp with heq | hlt
          · subst heq
            exact absurd ⟨hle, hgt⟩ (leNum_gtNum_exclusive _ _)
          · exact ⟨i, hlt, hgt⟩
      · rw [vals_getD_oob _ _ (by omega)] at hle
        simp [JsVal.leNum] at hle

theorem criticalPoint_final_descent_witness :
    ∃ r, (fPointsOf
        [⟨(1, 1),

          JsVal.vnull, JsVal.vnum 50, JsVal.vnum 50, JsVal.vnull⟩,
         ⟨(8, 1), JsVal.vnull, JsVal.vnum 10, JsVal.vnum 10, JsVal.vnull⟩,
         ⟨(15, 1), JsVal.vnull, JsVal.vnum 60, JsVal.vnum 60, JsVal.vnull⟩,
         ⟨(22, 1), JsVal.vnull, JsVal.vnum 30, JsVal.vnum 30, JsVal.vnull⟩,
         ⟨(29, 1), JsVal.vnull, JsVal.vnum 10, JsVal.vnum 10, JsVal.vnull⟩]).get? r =
      some ⟨(22, 1), JsVal.vnull, JsVal.vnum 30, JsVal.vnum 30, JsVal.vnull⟩ ∧
      (((fPointsOf
        [⟨(1, 1), JsVal.vnull, JsVal.vnum 50, JsVal.vnum 50, JsVal.vnull⟩,
         ⟨(8, 1), JsVal.vnull, JsVal.vnum 10, JsVal.vnum 10, JsVal.vnull⟩,
         ⟨(15, 1), JsVal.vnull, JsVal.vnum 60, JsVal.vnum 60, JsVal.vnull⟩,
         ⟨(22, 1), JsVal.vnull, JsVal.vnum 30, JsVal.vnum 30, JsVal.vnull⟩,
         ⟨(29, 1), JsVal.vnull, JsVal.vnum 10, JsVal.vnum 10, JsVal.vnull⟩]).map
          fallbackVal).getD r JsVal.vnull).leNum 40 = true ∧
      ∀ j, r < j →
        (((fPointsOf
          [⟨(1, 1), JsVal.vnull, JsVal.vnum 50, JsVal.vnum 50, JsVal.vnull⟩,
           ⟨(8, 1), JsVal.vnull, JsVal.vnum 10, JsVal.vnum 10, JsVal.vnull⟩,
           ⟨(15, 1), JsVal.vnull, JsVal.vnum 60, JsVal.vnum 60, JsVal.vnull⟩,
           ⟨(22, 1), JsVal.vnull, JsVal.vnum 30, JsVal.vnum 30, JsVal.vnull⟩,
           ⟨(29, 1), JsVal.vnull, JsVal.vnum 10, JsVal.vnum 10, JsVal.vnull⟩]).map
            fallbackVal).getD j JsVal.vnull).gtNum 40 = false :=
  (criticalPoint_final_descent
    [⟨(1, 1), JsVal.vnull, JsVal.vnum 50, JsVal.vnum 50, JsVal.vnull⟩,
     ⟨(8, 1), JsVal.vnull, JsVal.vnum 10, JsVal.vnum 10, JsVal.vnull⟩,
     ⟨(15, 1), JsVal.vnull, JsVal.vnum 60, JsVal.vnum 60, JsVal.vnull⟩,
     ⟨(22, 1), JsVal.vnull, JsVal.vnum 30, JsVal.vnum 30, JsVal.vnull⟩,
     ⟨(29, 1), JsVal.vnull, JsVal.vnum 10, JsVal.vnum 10, JsVal.vnull⟩] 40
    (by decide)).1
    ⟨(22, 1), JsVal.vnull, JsVal.vnum 30, JsVal.vnum 30, JsVal.vnull⟩ (by decide)

/-! ## C8: totality and finiteness of the rates -/

/-- **C8 (amended).** The engine is total (a Lean function) and its rates are
actual numbers except in one degenerate case: `minRate` is always finite;
`realRate` (and `declineRate` when `minAmount` is absent) is finite whenever
the regression denominator is nonzero or fewer than 2 deduplicated samples
remain; with `minAmount` present `declineRate` is always finite.  (When ≥ 2
deduplicated samples share a single parsed date the slope is `0/0` = NaN.) -/
theorem rates_finite_unless_degenerate (history : List HistoryItem) (orders : List Order)
    (mad : List MinAmountItem) (sku : String) (cs : ℚ) (today : Int) :
    ((regDen (skuHistoryOf history sku) ≠ 0 ∨ (skuHistoryOf history sku).length < 2) →
      (useProductForecast history orders mad sku cs today).realRate.isSome = true ∧
      (useProductForecast history orders mad sku cs today).declineRate.isSome = true) ∧
    ((minAmountOf mad sku).isSome = true →
      (useProductForecast history orders mad sku cs today).declineRate.isSome = true) ∧
    (useProductForecast history orders mad sku cs today).minRate =
      minRateOf (minAmountOf mad sku) := by
  by_cases h2 : 2 ≤ (skuHistoryOf history sku).length
  · obtain ⟨s0, s1, rest, hsh⟩ := skuHistory_two _ h2
    rw [useProductForecast_hist history orders mad sku cs today s0 s1 rest hsh]
    refine ⟨?_, ?_, rfl⟩
    · intro hden
      have hden2 : regDen (skuHistoryOf history sku) ≠ 0 := by
        rcases hden with h | h
        · exact h
        · omega
      rw [hsh] at hden2
      have hslope : (slopeJs (s0 :: s1 :: rest)).isSome = true := by
        rw [slopeJs, if_neg hden2]
        rfl
      constructor
      · exact hslope
      · show (if (minAmountOf mad sku).isSome then some (minRateOf (minAmountOf mad sku))
          else slopeJs (s0 :: s1 :: rest)).isSome = true
        by_cases hma : (minAmountOf mad sku).isSome
        · rw [if_pos hma]
          rfl
        · rw [if_neg hma]
          exact hslope
    · intro hma
      show (if (minAmountOf mad sku).isSome then some (minRateOf (minAmountOf mad sku))
        else slopeJs (s0 :: s1 :: rest)).isSome = true
      rw [if_pos hma]
      rfl
  · rw [useProductForecast_short history orders mad sku cs today (by omega)]
    by_cases hcs : 0 < cs
    · rw [if_pos hcs]
      exact ⟨fun _ => ⟨rfl, rfl⟩, fun _ => rfl, rfl⟩
    · rw [if_neg hcs]
      exact ⟨fun _ => ⟨rfl, rfl⟩, fun _ => rfl, rfl⟩

theorem rates_finite_witness :
    ((useProductForecast
        [⟨some (mkDate 2024 0 1), "A", 100⟩, ⟨some (mkDate 2024 0 8), "A", 100⟩,
         ⟨some (mkDate 2024 0 15), "A", 86⟩]
        [] [⟨"A", 180⟩] "A" 86 (mkDate 2024 0 15)).realRate.isSome = true ∧
      (useProductForecast
        [⟨some (mkDate 2024 0 1), "A", 100⟩, ⟨some (mkDate 2024 0 8), "A", 100⟩,
         ⟨some (mkDate 2024 0 15), "A", 86⟩]
        [] [⟨"A", 180⟩] "A" 86 (mkDate 2024 0 15)).declineRate.isSome = true) ∧
    (useProductForecast
        [⟨some (mkDate 2024 0 1), "A", 100⟩, ⟨some (mkDate 2024 0 8), "A", 100⟩,
         ⟨some (mkDate 2024 0 15), "A", 86⟩]
        [] [⟨"A", 180⟩] "A" 86 (mkDate 2024 0 15)).declineRate.isSome = true :=
  ⟨(rates_finite_unless_degenerate
      [⟨some (mkDate 2024 0 1), "A", 100⟩, ⟨some (mkDate 2024 0 8), "A", 100⟩,
       ⟨some (mkDate 2024 0 15), "A", 86⟩]
      [] [⟨"A", 180⟩] "A" 86 (mkDate 2024 0 15)).1 (Or.inl (by decide)),
   (rates_finite_unless_degenerate
      [⟨some (mkDate 2024 0 1), "A", 100⟩, ⟨some (mkDate 2024 0 8), "A", 100⟩,
       ⟨some (mkDate 2024 0 15), "A", 86⟩]
      [] [⟨"A", 180⟩] "A" 86 (mkDate 2024 0 15)).2.1 (by decide)⟩

/-- Concrete input for the C8 counterexample: two samples with the same parsed
date but different quantities survive deduplication, so all regression `x` are
equal and the slope is `0/0` = NaN. -/
def cexHist8 : List HistoryItem :=
  [⟨some cexToday, "A", 100⟩, ⟨some cexToday, "A", 90⟩]

/-- **C8 (counterexample).** `realRate` (and, with `minAmount` absent,
`declineRate`) is NaN — not a finite number — on a same-date duplicate-sample
history. -/
theorem realRate_nan_cex :
    (useProductForecast cexHist8 [] [] "A" 90 cexToday).realRate = none ∧
    (useProductForecast cexHist8 [] [] "A" 90 cexToday).declineRate = none :=
  ⟨by decide, by decide⟩

/-! ## C9: empty usable history with zero stock -/

theorem skuHistoryOf_empty (history : List HistoryItem) (sku : String)
    (hh : ∀ h ∈ history, h.sku = sku → h.date = none) :
    skuHistoryOf history sku = [] := by
  rw [skuHistoryOf]
  have hfm : (history.filter (fun h => h.sku == sku)).filterMap
      (fun h => h.date.map (fun t => (⟨t, h.quantity⟩ : Samp))) = [] := by
    induction history with
    | nil => rfl
    | cons a t ih =>
      have iht := ih (fun h hm hs => hh h (List.mem_cons_of_mem a hm) hs)
      by_cases hs : (a.sku == sku) = true
      · have hd : a.date = none := hh a (List.mem_cons_self a t) (by simpa using hs)
        simpa [List.filter_cons, hs, hd] using iht
      · simpa [List.filter_cons, hs] using iht
  rw [hfm]
  rfl

/-- **C9 (amended).** With an empty usable history (no samples for the sku, or
all their dates unparseable) and `currentStock = 0`: the chart is empty,
`declineRate = realRate = 0`, there is no critical point — and `minRate` is
`0` unless a `minAmount` entry exists for the sku, in which case it is
`−minAmount/180`. -/
theorem empty_history_zero_stock (history : List HistoryItem) (orders : List Order)
    (mad : List MinAmountItem) (sku : String) (today : Int)
    (hh : ∀ h ∈ history, h.sku = sku → h.date = none) :
    (useProductForecast history orders mad sku 0 today).chartData = [] ∧
    (useProductForecast history orders mad sku 0 today).declineRate = some 0 ∧
    (useProductForecast history orders mad sku 0 today).realRate = some 0 ∧
    (useProductForecast history orders mad sku 0 today).minRate =
      minRateOf (minAmountOf mad sku) ∧
    criticalPoint (useProductForecast history orders mad sku 0 today).chartData
      (useProductForecast history orders mad sku 0 today).minAmount = none := by
  have hsh := skuHistoryOf_empty history sku hh
  have h2 : (skuHistoryOf history sku).length < 2 := by
    rw [hsh]
    simp
  rw [useProductForecast_short history orders mad sku 0 today h2, if_neg (by norm_num)]
  refine ⟨rfl, rfl, rfl, rfl, ?_⟩
  cases hma : minAmountOf mad sku with
  | none => rfl
  | some a => simp [criticalPoint, hasOrdersOf, fPointsOf]

theorem empty_history_zero_stock_witness :
    (useProductForecast [] [] [] "A" 0 0).chartData = [] ∧
    (useProductForecast [] [] [] "A" 0 0).declineRate = some 0 ∧
    (useProductForecast [] [] [] "A" 0 0).realRate = some 0 ∧
    (useProductForecast [] [] [] "A" 0 0).minRate = minRateOf (minAmountOf [] "A") ∧
    criticalPoint (useProductForecast [] [] [] "A" 0 0).chartData
      (useProductForecast [] [] [] "A" 0 0).minAmount = none :=
  empty_history_zero_stock [] [] [] "A" 0 (by simp)

/-- **C9 (counterexample).** With a `minAmount` entry present for the sku the
`minRate` returned on an empty history with zero stock is `−minAmount/180`,
not `0` as the claim requires. -/
theorem minRate_nonzero_cex :
    ¬ ((∀ h ∈ ([] : List HistoryItem), h.sku = "A" → h.date = none) →
      ((useProductForecast [] [] [⟨"A", 180⟩] "A" 0 0).chartData = [] ∧
       (useProductForecast [] [] [⟨"A", 180⟩] "A" 0 0).declineRate = some 0 ∧
       (useProductForecast [] [] [⟨"A", 180⟩] "A" 0 0).realRate = some 0 ∧
       (useProductForecast [] [] [⟨"A", 180⟩] "A" 0 0).minRate = 0 ∧
       criticalPoint (useProductForecast [] [] [⟨"A", 180⟩] "A" 0 0).chartData
         (useProductForecast [] [] [⟨"A", 180⟩] "A" 0 0).minAmount = none)) := by
  intro h
  have h5 := (h (by simp)).2.2.2.1
  exact absurd h5 (by decide)

end Inventory
